import Mathlib

/-!
# Verification of the INFRA content-curation pipeline and frontend client

Shallow embedding of:
* `frontend/src/api/client.ts` (axios client with the Telegram initData interceptor),
* `frontend/src/components/NewsCard.tsx` (`scoreBadgeVariant`, `NewsCard`) and
  `frontend/src/components/NewsFeed.tsx`,
* the backend curation pipeline (Sentinel dedup engine, credibility scorer,
  scheduler); the backend Python sources are not part of this tree, so those
  components are modelled from the specification.
-/

namespace Infra

/-! ## Frontend: `api/client.ts` — Telegram initData interceptor -/

/-- JavaScript truthiness of a `string | undefined` value:
defined and non-empty. -/
def truthyStr : Option String → Bool
  | some s => !(s == "")
  | none => false

/-- `setInitDataRaw` from `frontend/src/api/client.ts`: the module-level cache
`_initDataRaw` is overwritten only when the supplied value is truthy
(`if (raw) { _initDataRaw = raw; }`). -/
def setInitDataRaw (st : Option String) (raw : Option String) : Option String :=
  if truthyStr raw then raw else st

/-- The axios request interceptor from `frontend/src/api/client.ts`: the
`X-Telegram-Init-Data` header is attached exactly when the cached value is
truthy (`if (_initDataRaw) { config.headers[...] = _initDataRaw; }`);
`none` means the request carries no such header. -/
def requestHeader (st : Option String) : Option String :=
  if truthyStr st then st else none

/-- The cache after a sequence of `setInitDataRaw` calls, starting from the
initial `undefined` state. -/
def runSetCalls (calls : List (Option String)) : Option String :=
  calls.foldl setInitDataRaw none

/-- The most recently supplied truthy (non-empty) value of a call sequence,
written independently of the code: search the reversed call list. -/
def lastTruthy (calls : List (Option String)) : Option String :=
  (calls.reverse.find? truthyStr).join

/-! ## Frontend: `NewsCard.tsx` and `NewsFeed.tsx` -/

/-- The variant values accepted by `Badge` (`frontend/src/components/ui/Badge.tsx`). -/
inductive BadgeVariant
  | default
  | success
  | warning
  | destructive
  | outline
deriving DecidableEq, Repr

/-- `scoreBadgeVariant` from `frontend/src/components/NewsCard.tsx`:
`null → outline`, `score >= 7 → success`, `score >= 4 → warning`,
otherwise `destructive`.  JS numbers are modelled as rationals. -/
def scoreBadgeVariant (score : Option ℚ) : BadgeVariant :=
  match score with
  | none => .outline
  | some s => if s ≥ 7 then .success else if s ≥ 4 then .warning else .destructive

/-- The badge text rendered by `NewsCard`:
`item.sentiment_score !== null ? item.sentiment_score + "/10" : "N/A"`. -/
inductive BadgeLabel
  | na
  | scoreOutOf10 (s : ℚ)
deriving DecidableEq, Repr

/-- The `NewsItem` interface from `frontend/src/api/client.ts`. -/
structure NewsItem where
  id : Nat
  sourceType : String
  title : Option String
  summary : Option String
  sentimentScore : Option ℚ
  url : Option String
  createdAt : Option String
deriving DecidableEq, Repr

/-- The observable output of rendering one `NewsCard`. -/
structure RenderedCard where
  variant : BadgeVariant
  label : BadgeLabel
  titleText : String
  summaryText : String
deriving DecidableEq, Repr

/-- `NewsCard` from `frontend/src/components/NewsCard.tsx`: renders the badge
with `scoreBadgeVariant(item.sentiment_score)`, the score text or `"N/A"`,
`item.title ?? "Untitled"`, and `item.summary ?? item.title ?? "No summary available"`. -/
def renderNewsCard (item : NewsItem) : RenderedCard :=
  { variant := scoreBadgeVariant item.sentimentScore
    label := match item.sentimentScore with
      | some s => .scoreOutOf10 s
      | none => .na
    titleText := item.title.getD "Untitled"
    summaryText := item.summary.getD (item.title.getD "No summary available") }

/-- `NewsFeed` from `frontend/src/components/NewsFeed.tsx`: maps every item of
the fetched list through `NewsCard`, with no filtering. -/
def renderFeed (items : List NewsItem) : List RenderedCard :=
  items.map renderNewsCard

/-! ## Backend pipeline (spec-modelled)

The Python backend (`backend/services/sentinel.py`, `backend/services/scheduler.py`,
`backend/llm/provider_factory.py`) is referenced by the repository documents but
its source is not part of this tree; the definitions below are modelled from
the specification. -/

/-- Modelled from the spec: the `dedup state` of a ContentRecord (§3),
`unique | duplicate-of:<id> | pending`. -/
inductive DedupState
  | unique
  | duplicateOf (id : Nat)
  | pending
deriving DecidableEq, Repr

/-- Modelled from the spec: the `score state` of a ContentRecord (§3),
`unscored | scored:<1-10> | discard:<reason> | exhausted`. -/
inductive ScoreState
  | unscored
  | scored (n : Nat)
  | discard (reason : String)
  | exhausted
deriving DecidableEq, Repr

/-- Modelled from the spec: one nearest-neighbor answer of the Vector Index
query `query_neighbors(collection, vector, k) -> [(id, similarity)]` (§6),
together with the neighbor record's first-seen timestamp used by the
tie-break rule of §4.4. -/
structure Neighbor where
  nid : Nat
  similarity : ℚ
  firstSeen : Nat
deriving DecidableEq, Repr

/-- Modelled from the spec: the keep/merge decision of the Dedup Engine (§4.4). -/
inductive DedupDecision
  | duplicateOf (id : Nat)
  | unique
deriving DecidableEq, Repr

/-- Modelled from the spec: the §4.4 tie-break order between two neighbors that
both exceed the threshold — prefer strictly higher similarity, and on exactly
equal similarity prefer the earlier first-seen timestamp. -/
def better (a b : Neighbor) : Neighbor :=
  if a.similarity < b.similarity then b
  else if b.similarity = a.similarity ∧ b.firstSeen < a.firstSeen then b
  else a

/-- Modelled from the spec: select the winning neighbor of a candidate list
under the §4.4 tie-break (highest similarity, then earliest first-seen). -/
def pickBest : List Neighbor → Option Neighbor
  | [] => none
  | n :: ns => some (ns.foldl better n)

/-- Modelled from the spec: the Dedup Engine decision rule of §4.4 on a Vector
Index query result.  A query error is fail-open to `unique` (§4.4, §7); on a
successful query, if some neighbor's similarity meets or exceeds the threshold
the best such neighbor (tie-break of §4.4) wins and the candidate is
`duplicate-of` it; otherwise the candidate is `unique`. -/
def dedupDecide (threshold : ℚ) (res : Except Unit (List Neighbor)) : DedupDecision :=
  match res with
  | .error _ => .unique
  | .ok ns =>
    match pickBest (ns.filter fun n => threshold ≤ n.similarity) with
    | some n => .duplicateOf n.nid
    | none => .unique

/-! ### Credibility Scorer (spec-modelled, §4.5) -/

/-- Modelled from the spec: per-provider circuit state (§3),
`closed | open-until:<time> | half-open`. -/
inductive ProviderState
  | closed
  | openUntil (t : Nat)
  | halfOpen
deriving DecidableEq, Repr

/-- Modelled from the spec: the classified outcome of one LLM provider call
(§4.5, §6): success with a numeric score and rationale, or
timeout / rate-limited / error. -/
inductive CallOutcome
  | success (score : Nat) (rationale : String)
  | timeout
  | rateLimited
  | error
deriving DecidableEq, Repr

/-- Modelled from the spec: a provider is skipped entirely while its breaker is
`open-until:<t>` and the cool-down has not elapsed (§4.5). -/
def providerSkipped (now : Nat) : ProviderState → Bool
  | .openUntil t => now < t
  | _ => false

/-- Modelled from the spec: the provider chain of §4.5.  The ordered provider
list is tried in sequence; a provider whose breaker is open with an unelapsed
cool-down is skipped without an attempt; a success ends the chain; a
rate-limited / error / timeout outcome records the attempt and advances to the
next provider with no same-provider retry.  Returns the list of providers
actually attempted (the ScoreAttempt audit trail, in order) and the first
successful (score, rationale), if any. -/
def runChain (now : Nat) (pstate : Nat → ProviderState) (outcome : Nat → CallOutcome) :
    List Nat → List Nat × Option (Nat × String)
  | [] => ([], none)
  | p :: ps =>
    if providerSkipped now (pstate p) then runChain now pstate outcome ps
    else
      match outcome p with
      | .success s r => ([p], some (s, r))
      | _ =>
        let rest := runChain now pstate outcome ps
        (p :: rest.1, rest.2)

/-- Modelled from the spec: the Credibility Scorer's final state for a record
(§4.5).  A successful response with score below the acceptance threshold
(default 4) yields `discard:hype`; at or above it, `scored:<n>`; chain
exhaustion yields `exhausted`. -/
def scoreRecord (accept : Nat) (now : Nat) (pstate : Nat → ProviderState)
    (outcome : Nat → CallOutcome) (providers : List Nat) : ScoreState × String :=
  match (runChain now pstate outcome providers).2 with
  | some (s, r) => (if s < accept then (.discard "hype", r) else (.scored s, r))
  | none => (.exhausted, "")

/-! ### Pipeline Orchestrator state (spec-modelled, §3, §4.3, §4.4, §4.6) -/

/-- Modelled from the spec: a raw source item (§3) — source identity,
source-native identifier, payload text — together with its embedding vector,
which the Embedding Provider computes from the text before the dedup query
(§4.4; the provider is an external collaborator, §6). -/
structure RawItem where
  source : Nat
  nativeId : Nat
  text : String
  vec : List ℚ
deriving DecidableEq, Repr

/-- ASCII whitespace test used by text canonicalization. -/
def isSpaceChar (c : Char) : Bool :=
  c == ' ' || c == '\t' || c == '\n' || c == '\r'

/-- Modelled from the spec: strip/canonicalize the payload text (§4.3) —
remove leading and trailing whitespace. -/
def canonicalize (s : String) : String :=
  ⟨((s.toList.dropWhile isSpaceChar).reverse.dropWhile isSpaceChar).reverse⟩

/-- Modelled from the spec: the content hash over canonicalized text used for
exact-duplicate short-circuiting (§4.3); a deterministic rolling hash. -/
def contentHash (s : String) : Nat :=
  (s.toList.map Char.toNat).foldl (fun a c => a * 131 + c) 7

/-- Modelled from the spec: the persisted ContentRecord (§3). -/
structure ContentRecord where
  rid : Nat
  source : Nat
  nativeId : Nat
  hash : Nat
  text : String
  dedup : DedupState
  score : ScoreState
  rationale : String
  firstSeen : Nat
  lastMerged : Nat
deriving DecidableEq, Repr

/-- Modelled from the spec: one Vector Index entry — a record's embedding
upserted under the record's id (§4.4), with the record's first-seen timestamp
available to the tie-break rule. -/
structure IndexEntry where
  eid : Nat
  vec : List ℚ
  firstSeen : Nat
deriving DecidableEq, Repr

/-- Modelled from the spec: the pipeline-visible persistent state — the
ContentRecord store and the Vector Index collection, plus the id counter of
the Persistence Writer's stable identifiers. -/
structure PipelineState where
  store : List ContentRecord
  index : List IndexEntry
  nextId : Nat
deriving Repr

/-- Modelled from the spec: inner product of two embedding vectors — the
normalized similarity scale of §4.4 (cosine similarity of pre-normalized
embeddings). -/
def dotp (a b : List ℚ) : ℚ :=
  (a.zip b).foldl (fun acc p => acc + p.1 * p.2) 0

/-- Modelled from the spec: the Vector Index nearest-neighbor query (§6) over
the current collection: every stored embedding with its similarity to the
candidate vector. -/
def queryNeighbors (idx : List IndexEntry) (v : List ℚ) : List Neighbor :=
  idx.map fun e => ⟨e.eid, dotp e.vec v, e.firstSeen⟩

/-- Modelled from the spec: does a ContentRecord with this exact content hash
already exist for the same source (§4.3 exact-duplicate short-circuit)? -/
def exactDupExists (store : List ContentRecord) (src h : Nat) : Bool :=
  store.any fun r => r.source == src && r.hash == h

/-- Modelled from the spec: does a ContentRecord for this
(source, source-native-id) pair already exist (§3 invariant; §4.6 persistence
upserts keyed by the stable identifier make replays no-ops)? -/
def recordExists (store : List ContentRecord) (src nat : Nat) : Bool :=
  store.any fun r => r.source == src && r.nativeId == nat

/-- Modelled from the spec: the per-step environment of one item's trip through
the pipeline — the wall clock, whether the Vector Index query succeeds
(`indexOk = false` models an `IndexQueryError`, §7), the provider breaker
states, each provider's outcome for this item, and the configured ordered
provider list (§4.5). -/
structure StepEnv where
  now : Nat
  indexOk : Bool
  pstate : Nat → ProviderState
  outcome : Nat → CallOutcome
  providers : List Nat

/-- Modelled from the spec: the §4.4 metadata merge on the winning neighbor —
refresh its `last-merged timestamp`, touching nothing else. -/
def touchMerged (now nbr : Nat) (r : ContentRecord) : ContentRecord :=
  if r.rid == nbr then { r with lastMerged := now } else r

/-- Modelled from the spec: the Pipeline Orchestrator's handling of one raw
item (§4.6): normalize (§4.3) with exact-hash and stable-id short-circuits,
dedup (§4.4), then — only for a `unique` candidate — credibility scoring
(§4.5) and index upsert; a duplicate is persisted as `duplicate-of` with the
neighbor's last-merged timestamp refreshed, and no new scored record. -/
def stepIngest (threshold : ℚ) (accept : Nat) (st : PipelineState) (env : StepEnv)
    (item : RawItem) : PipelineState :=
  let canon := canonicalize item.text
  let h := contentHash canon
  if exactDupExists st.store item.source h then st
  else if recordExists st.store item.source item.nativeId then st
  else
    let res : Except Unit (List Neighbor) :=
      if env.indexOk then .ok (queryNeighbors st.index item.vec) else .error ()
    match dedupDecide threshold res with
    | .duplicateOf nbr =>
      let newRec : ContentRecord :=
        ⟨st.nextId, item.source, item.nativeId, h, canon, .duplicateOf nbr,
          .unscored, "", env.now, env.now⟩
      { store := st.store.map (touchMerged env.now nbr) ++ [newRec]
        index := st.index
        nextId := st.nextId + 1 }
    | .unique =>
      let sc := scoreRecord accept env.now env.pstate env.outcome env.providers
      let newRec : ContentRecord :=
        ⟨st.nextId, item.source, item.nativeId, h, canon, .unique,
          sc.1, sc.2, env.now, env.now⟩
      { store := st.store ++ [newRec]
        index := st.index ++ [⟨st.nextId, item.vec, env.now⟩]
        nextId := st.nextId + 1 }

/-- Is a score state a `scored:<n>` state? -/
def isScored : ScoreState → Bool
  | .scored _ => true
  | _ => false

/-- The number of scored records in a store. -/
def scoredCount (store : List ContentRecord) : Nat :=
  store.countP fun r => isScored r.score

/-- Modelled from the spec: the empty initial pipeline state. -/
def initState : PipelineState := ⟨[], [], 0⟩

/-- Modelled from the spec: run the pipeline over a sequence of items, each
with its step environment — per-item errors never abort the enclosing job
(§7), so a run is a total fold. -/
def runPipeline (threshold : ℚ) (accept : Nat) (st : PipelineState) :
    List (StepEnv × RawItem) → PipelineState
  | [] => st
  | (env, item) :: rest =>
    runPipeline threshold accept (stepIngest threshold accept st env item) rest

/-- Modelled from the spec: the served feed (§6) — the query layer filters out
`duplicate` and `discard` states, exposing only unique, scored records. -/
def servedFeed (store : List ContentRecord) : List ContentRecord :=
  store.filter fun r =>
    (match r.dedup with | .unique => true | _ => false) &&
    (match r.score with | .scored _ => true | _ => false)

/-! ### Scheduler (spec-modelled, §4.1, §5) -/

/-- Modelled from the spec: the per-job phase of the Scheduler state machine
(§4.1), `idle → running → idle` on success, `idle → running → backoff → idle`
on transient failure. -/
inductive JobPhase
  | idle
  | running
  | backoff
deriving DecidableEq, Repr

/-- Modelled from the spec: the Scheduler's per-job bookkeeping — the state
machine phase plus the number of in-flight runs of the job. -/
structure JobState where
  phase : JobPhase
  inflight : Nat
deriving DecidableEq, Repr

/-- Modelled from the spec: the events driving the Scheduler state machine —
a trigger (scheduled tick or manual `run_once`, which participate in the same
overlap-exclusion, §4.1), a run finishing with success or transient failure,
and a backoff interval elapsing. -/
inductive SchedEvent
  | trigger (j : Nat)
  | finishOk (j : Nat)
  | finishFail (j : Nat)
  | backoffDone (j : Nat)
deriving DecidableEq, Repr

/-- Modelled from the spec: one transition of the Scheduler (§4.1).  A trigger
for a job already `running` is a no-op (not queued); a trigger in `backoff` is
also not started; a finishing run returns the job to `idle` or `backoff`. -/
def schedStep (st : Nat → JobState) (e : SchedEvent) : Nat → JobState :=
  match e with
  | .trigger j => fun k =>
    if k = j then
      match (st j).phase with
      | .idle => ⟨.running, (st j).inflight + 1⟩
      | _ => st j
    else st k
  | .finishOk j => fun k =>
    if k = j then
      match (st j).phase with
      | .running => ⟨.idle, (st j).inflight - 1⟩
      | _ => st j
    else st k
  | .finishFail j => fun k =>
    if k = j then
      match (st j).phase with
      | .running => ⟨.backoff, (st j).inflight - 1⟩
      | _ => st j
    else st k
  | .backoffDone j => fun k =>
    if k = j then
      match (st j).phase with
      | .backoff => ⟨.idle, (st j).inflight⟩
      | _ => st j
    else st k

/-- Modelled from the spec: every job starts `idle` with no in-flight run. -/
def initSched : Nat → JobState := fun _ => ⟨.idle, 0⟩

/-- Modelled from the spec: the Scheduler state after a sequence of events. -/
def runSched (events : List SchedEvent) : Nat → JobState :=
  events.foldl schedStep initSched

/-! ## Supporting lemmas -/

theorem foldl_setInitDataRaw (calls : List (Option String)) (st : Option String) :
    calls.foldl setInitDataRaw st = (calls.reverse.find? truthyStr).getD st := by
  induction calls generalizing st with
  | nil => simp
  | cons c cs ih =>
    simp only [List.foldl_cons, ih, List.reverse_cons, List.find?_append]
    cases h : cs.reverse.find? truthyStr with
    | some d => simp [Option.or]
    | none =>
      cases hc : truthyStr c with
      | true => simp [setInitDataRaw, hc, Option.or]
      | false => simp [setInitDataRaw, hc, Option.or]

theorem requestHeader_truthy (st : Option String) (h : truthyStr st = true) :
    requestHeader st = st := by
  simp [requestHeader, h]

/-- The tie-break preorder of §4.4: `n` beats `m` when `n` has strictly higher
similarity, or equal similarity and a first-seen timestamp no later. -/
def domin (n m : Neighbor) : Prop :=
  m.similarity < n.similarity ∨
    (m.similarity = n.similarity ∧ n.firstSeen ≤ m.firstSeen)

theorem domin_refl (n : Neighbor) : domin n n :=
  Or.inr ⟨rfl, le_refl _⟩

theorem domin_trans {a b c : Neighbor} (h1 : domin a b) (h2 : domin b c) :
    domin a c := by
  rcases h1 with h1 | ⟨e1, f1⟩
  · rcases h2 with h2 | ⟨e2, f2⟩
    · exact Or.inl (h2.trans h1)
    · exact Or.inl (e2 ▸ h1)
  · rcases h2 with h2 | ⟨e2, f2⟩
    · exact Or.inl (e1 ▸ h2)
    · exact Or.inr ⟨e2.trans e1, f1.trans f2⟩

theorem better_eq_or (a b : Neighbor) : better a b = a ∨ better a b = b := by
  unfold better
  split
  · exact Or.inr rfl
  · split
    · exact Or.inr rfl
    · exact Or.inl rfl

theorem domin_better_left (a b : Neighbor) : domin (better a b) a := by
  unfold better
  split
  · exact Or.inl (by assumption)
  · split
    · next h2 => exact Or.inr ⟨h2.1.symm, le_of_lt h2.2⟩
    · exact domin_refl a

theorem domin_better_right (a b : Neighbor) : domin (better a b) b := by
  unfold better
  split
  · exact domin_refl b
  · split
    · exact domin_refl b
    · next h1 h2 =>
      rcases lt_trichotomy b.similarity a.similarity with hlt | heq | hgt
      · exact Or.inl hlt
      · refine Or.inr ⟨heq, ?_⟩
        rcases not_and_or.mp h2 with hne | hfs
        · exact absurd heq hne
        · exact le_of_not_lt hfs
      · exact absurd hgt h1

theorem foldl_better_spec (l : List Neighbor) (acc : Neighbor) :
    (l.foldl better acc = acc ∨ l.foldl better acc ∈ l) ∧
      domin (l.foldl better acc) acc ∧
      ∀ m ∈ l, domin (l.foldl better acc) m := by
  induction l generalizing acc with
  | nil => exact ⟨Or.inl rfl, domin_refl acc, by simp⟩
  | cons x xs ih =>
    obtain ⟨hmem, hdom, hall⟩ := ih (better acc x)
    simp only [List.foldl_cons]
    refine ⟨?_, ?_, ?_⟩
    · rcases hmem with h | h
      · rcases better_eq_or acc x with h2 | h2
        · exact Or.inl (by rw [h, h2])
        · exact Or.inr (by rw [h, h2]; exact List.mem_cons_self x xs)
      · exact Or.inr (List.mem_cons_of_mem x h)
    · exact domin_trans hdom (domin_better_left acc x)
    · intro m hm
      rcases List.mem_cons.mp hm with h | h
      · rw [h]
        exact domin_trans hdom (domin_better_right acc x)
      · exact hall m h

theorem pickBest_spec {l : List Neighbor} {n : Neighbor} (h : pickBest l = some n) :
    n ∈ l ∧ ∀ m ∈ l, domin n m := by
  cases l with
  | nil => simp [pickBest] at h
  | cons x xs =>
    simp only [pickBest, Option.some.injEq] at h
    obtain ⟨hmem, hdom, hall⟩ := foldl_better_spec xs x
    subst h
    refine ⟨?_, ?_⟩
    · rcases hmem with h | h
      · rw [h]
        exact List.mem_cons_self x xs
      · exact List.mem_cons_of_mem x h
    · intro m hm
      rcases List.mem_cons.mp hm with h | h
      · exact h ▸ hdom
      · exact hall m h

theorem pickBest_isSome {l : List Neighbor} (h : l ≠ []) :
    ∃ n, pickBest l = some n := by
  cases l with
  | nil => exact absurd rfl h
  | cons x xs => exact ⟨xs.foldl better x, rfl⟩

theorem touchMerged_fields (now nbr : Nat) (r : ContentRecord) :
    (touchMerged now nbr r).rid = r.rid ∧
    (touchMerged now nbr r).source = r.source ∧
    (touchMerged now nbr r).nativeId = r.nativeId ∧
    (touchMerged now nbr r).hash = r.hash ∧
    (touchMerged now nbr r).dedup = r.dedup ∧
    (touchMerged now nbr r).score = r.score := by
  unfold touchMerged
  split <;> simp

theorem dedupDecide_ok_dup {th : ℚ} {ns : List Neighbor} {i : Nat}
    (h : dedupDecide th (.ok ns) = .duplicateOf i) :
    ∃ n ∈ ns, n.nid = i ∧ th ≤ n.similarity ∧
      ∀ m ∈ ns, th ≤ m.similarity → domin n m := by
  simp only [dedupDecide] at h
  cases hp : pickBest (ns.filter fun n => th ≤ n.similarity) with
  | none => rw [hp] at h; cases h
  | some n =>
    rw [hp] at h
    obtain ⟨hmem, hdom⟩ := pickBest_spec hp
    have hn := List.mem_filter.mp hmem
    have hsim : th ≤ n.similarity := by
      have := hn.2
      simpa using this
    have hni : n.nid = i := by
      simpa using h
    exact ⟨n, hn.1, hni, hsim, fun m hm hth =>
      hdom m (List.mem_filter.mpr ⟨hm, by simpa using hth⟩)⟩

theorem queryNeighbors_mem {idx : List IndexEntry} {v : List ℚ} {n : Neighbor}
    (h : n ∈ queryNeighbors idx v) :
    ∃ e ∈ idx, n.nid = e.eid := by
  obtain ⟨e, he, hn⟩ := List.mem_map.mp h
  exact ⟨e, he, by rw [← hn]⟩

/-! ## Claim theorems -/

/-- C9: Once `setInitDataRaw` has been called with a non-empty string, every
subsequent request issued through the axios client carries an
`X-Telegram-Init-Data` header equal to the most recently supplied non-empty
value; calling `setInitDataRaw` with `undefined` or the empty string never
clears a previously stored value; and before any non-empty value is supplied
no request carries the header. -/
theorem c9_initdata_interceptor :
    (∀ calls : List (Option String),
        requestHeader (runSetCalls calls) = lastTruthy calls) ∧
    (∀ st : Option String,
        setInitDataRaw st none = st ∧ setInitDataRaw st (some "") = st) ∧
    (∀ calls : List (Option String), (∀ c ∈ calls, truthyStr c = false) →
        requestHeader (runSetCalls calls) = none) ∧
    (∀ calls : List (Option String), ∀ s : String, s ≠ "" →
        runSetCalls (calls ++ [some s]) = some s) := by
  refine ⟨fun calls => ?_, fun st => ⟨rfl, by simp [setInitDataRaw, truthyStr]⟩,
    fun calls h => ?_, fun calls s hs => ?_⟩
  · rw [runSetCalls, foldl_setInitDataRaw, lastTruthy]
    cases hf : calls.reverse.find? truthyStr with
    | some c =>
      have := List.find?_some hf
      simp [requestHeader_truthy c this]
    | none => simp [requestHeader, truthyStr]
  · rw [runSetCalls, foldl_setInitDataRaw]
    have : calls.reverse.find? truthyStr = none := by
      rw [List.find?_eq_none]
      intro c hc
      simp [h c (List.mem_reverse.mp hc)]
    simp [this, requestHeader, truthyStr]
  · rw [runSetCalls, List.foldl_append]
    simp [setInitDataRaw, truthyStr, hs]

/-- Witness for C9 at concrete call sequences. -/
theorem c9_initdata_interceptor_witness :
    requestHeader (runSetCalls [some "a", some "", none, some "b", none]) =
      lastTruthy [some "a", some "", none, some "b", none] ∧
    (setInitDataRaw (some "a") none = some "a" ∧
      setInitDataRaw (some "a") (some "") = some "a") ∧
    requestHeader (runSetCalls [none, some ""]) = none ∧
    runSetCalls ([some "a"] ++ [some "b"]) = some "b" :=
  ⟨c9_initdata_interceptor.1 _, c9_initdata_interceptor.2.1 (some "a"),
    c9_initdata_interceptor.2.2.1 [none, some ""] (by decide),
    c9_initdata_interceptor.2.2.2 [some "a"] "b" (by decide)⟩

/-- C10: `scoreBadgeVariant` is total over number-or-null inputs and the feed
renders every item: a `null` score gives the `outline` variant with text
`N/A`; a score ≥ 7 gives `success`; 4 ≤ score < 7 gives `warning`; score < 4
gives `destructive`; and `NewsFeed` displays one card per fetched item with no
filtering. -/
theorem c10_badge_totality_and_feed :
    (∀ item : NewsItem, item.sentimentScore = none →
        (renderNewsCard item).variant = .outline ∧ (renderNewsCard item).label = .na) ∧
    (∀ item : NewsItem, ∀ s : ℚ, item.sentimentScore = some s →
        (7 ≤ s → (renderNewsCard item).variant = .success) ∧
        (4 ≤ s → s < 7 → (renderNewsCard item).variant = .warning) ∧
        (s < 4 → (renderNewsCard item).variant = .destructive)) ∧
    (∀ items : List NewsItem,
        (renderFeed items).length = items.length ∧
        ∀ i : Nat, (renderFeed items)[i]? = (items[i]?).map renderNewsCard) := by
  refine ⟨fun item h => by simp [renderNewsCard, scoreBadgeVariant, h],
    fun item s h => ⟨fun h7 => ?_, fun h4 h7 => ?_, fun h4 => ?_⟩,
    fun items => ⟨by simp [renderFeed], fun i => by simp [renderFeed]⟩⟩
  · simp [renderNewsCard, scoreBadgeVariant, h, ge_iff_le, h7]
  · have n7 : ¬(7 : ℚ) ≤ s := not_le.mpr h7
    simp [renderNewsCard, scoreBadgeVariant, h, ge_iff_le, n7, h4]
  · have n7 : ¬(7 : ℚ) ≤ s := not_le.mpr (h4.trans (by norm_num))
    have n4 : ¬(4 : ℚ) ≤ s := not_le.mpr h4
    simp [renderNewsCard, scoreBadgeVariant, h, ge_iff_le, n7, n4]

/-- Witness for C10 at concrete items and scores. -/
theorem c10_badge_totality_and_feed_witness :
    ((renderNewsCard ⟨1, "telegram", none, none, none, none, none⟩).variant = .outline ∧
      (renderNewsCard ⟨1, "telegram", none, none, none, none, none⟩).label = .na) ∧
    (renderNewsCard ⟨2, "rss", none, none, some 9, none, none⟩).variant = .success ∧
    (renderNewsCard ⟨3, "rss", none, none, some 5, none, none⟩).variant = .warning ∧
    (renderNewsCard ⟨4, "rss", none, none, some 3, none, none⟩).variant = .destructive ∧
    (renderFeed [⟨4, "rss", none, none, some 3, none, none⟩]).length = 1 :=
  ⟨c10_badge_totality_and_feed.1 _ rfl,
    (c10_badge_totality_and_feed.2.1 _ 9 rfl).1 (by norm_num),
    (c10_badge_totality_and_feed.2.1 _ 5 rfl).2.1 (by norm_num) (by norm_num),
    (c10_badge_totality_and_feed.2.1 _ 3 rfl).2.2 (by norm_num),
    (c10_badge_totality_and_feed.2.2 _).1⟩

/-- C1: a candidate whose nearest-neighbor similarity meets or exceeds the
threshold (inclusive boundary) is marked duplicate-of that neighbor and no new
scored record is created; a candidate whose nearest-neighbor similarity is
strictly below the threshold is marked unique. -/
theorem c1_threshold_inclusive_boundary :
    (∀ (th : ℚ) (n : Neighbor),
        dedupDecide th (.ok [n]) =
          if th ≤ n.similarity then .duplicateOf n.nid else .unique) ∧
    (∀ (th : ℚ) (ns : List Neighbor), (∃ n ∈ ns, th ≤ n.similarity) →
        ∃ i, dedupDecide th (.ok ns) = .duplicateOf i) ∧
    (∀ (th : ℚ) (ns : List Neighbor), (∀ n ∈ ns, n.similarity < th) →
        dedupDecide th (.ok ns) = .unique) ∧
    (∀ (th : ℚ) (accept : Nat) (st : PipelineState) (env : StepEnv)
        (item : RawItem) (nbr : Nat),
        exactDupExists st.store item.source (contentHash (canonicalize item.text)) = false →
        recordExists st.store item.source item.nativeId = false →
        env.indexOk = true →
        dedupDecide th (.ok (queryNeighbors st.index item.vec)) = .duplicateOf nbr →
        (stepIngest th accept st env item).store =
          st.store.map (touchMerged env.now nbr) ++
            [⟨st.nextId, item.source, item.nativeId,
              contentHash (canonicalize item.text), canonicalize item.text,
              .duplicateOf nbr, .unscored, "", env.now, env.now⟩] ∧
        scoredCount (stepIngest th accept st env item).store = scoredCount st.store) := by
  refine ⟨fun th n => ?_, fun th ns ⟨n, hn, hth⟩ => ?_, fun th ns h => ?_,
    fun th accept st env item nbr h1 h2 h3 h4 => ?_⟩
  · by_cases hth : th ≤ n.similarity
    · simp [dedupDecide, List.filter, hth, pickBest]
    · simp [dedupDecide, List.filter, hth, pickBest]
  · have hmem : n ∈ ns.filter fun n => th ≤ n.similarity :=
      List.mem_filter.mpr ⟨hn, by simpa using hth⟩
    obtain ⟨m, hm⟩ := pickBest_isSome (List.ne_nil_of_mem hmem)
    exact ⟨m.nid, by simp [dedupDecide, hm]⟩
  · have hnil : (ns.filter fun n => th ≤ n.similarity) = [] := by
      rw [List.filter_eq_nil_iff]
      intro n hn
      simpa using not_le.mpr (h n hn)
    simp [dedupDecide, hnil, pickBest]
  · have hstep : (stepIngest th accept st env item).store =
        st.store.map (touchMerged env.now nbr) ++
          [⟨st.nextId, item.source, item.nativeId,
            contentHash (canonicalize item.text), canonicalize item.text,
            .duplicateOf nbr, .unscored, "", env.now, env.now⟩] := by
      simp only [stepIngest, h1, h2, h3, Bool.false_eq_true, if_false, if_true, h4]
    refine ⟨hstep, ?_⟩
    rw [hstep, scoredCount, scoredCount, List.countP_append, List.countP_map]
    have : ∀ r ∈ st.store,
        (((fun r => isScored r.score) ∘ touchMerged env.now nbr) r = true ↔
          (fun r => isScored r.score) r = true) := by
      intro r _
      simp [Function.comp, (touchMerged_fields env.now nbr r).2.2.2.2.2]
    rw [List.countP_congr this]
    simp [isScored]

/-- Witness for C1: similarity exactly at the threshold is duplicate,
similarity below is unique, and a duplicate step adds no scored record. -/
theorem c1_threshold_inclusive_boundary_witness :
    dedupDecide 1 (.ok [⟨5, 1, 3⟩]) = .duplicateOf 5 ∧
    dedupDecide 1 (.ok [⟨5, 0, 3⟩]) = .unique ∧
    scoredCount (stepIngest 0 4
      ⟨[⟨0, 2, 7, 99, "x", .unique, .scored 7, "r", 2, 2⟩], [⟨0, [], 2⟩], 1⟩
      ⟨5, true, fun _ => .closed, fun _ => .error, []⟩
      ⟨1, 9, "hello", []⟩).store =
    scoredCount [⟨0, 2, 7, 99, "x", .unique, .scored 7, "r", 2, 2⟩] :=
  ⟨(c1_threshold_inclusive_boundary.1 1 ⟨5, 1, 3⟩).trans (by simp),
   (c1_threshold_inclusive_boundary.1 1 ⟨5, 0, 3⟩).trans (by norm_num),
   (c1_threshold_inclusive_boundary.2.2.2 0 4
     ⟨[⟨0, 2, 7, 99, "x", .unique, .scored 7, "r", 2, 2⟩], [⟨0, [], 2⟩], 1⟩
     ⟨5, true, fun _ => .closed, fun _ => .error, []⟩
     ⟨1, 9, "hello", []⟩ 0 (by decide) (by decide) rfl (by decide)).2⟩

/-- C8: the dedup decision is a deterministic function of the candidate, the
Vector Index state and the threshold — two runs against an unchanged index
agree — and among the neighbors meeting the threshold the winner has the
highest similarity, with exact ties broken by the earliest first-seen
timestamp. -/
theorem c8_deterministic_tiebreak :
    (∀ (th : ℚ) (st1 st2 : PipelineState) (v : List ℚ), st1.index = st2.index →
        dedupDecide th (.ok (queryNeighbors st1.index v)) =
          dedupDecide th (.ok (queryNeighbors st2.index v))) ∧
    (∀ (th : ℚ) (ns : List Neighbor) (i : Nat),
        dedupDecide th (.ok ns) = .duplicateOf i →
        ∃ n ∈ ns, n.nid = i ∧ th ≤ n.similarity ∧
          ∀ m ∈ ns, th ≤ m.similarity →
            m.similarity ≤ n.similarity ∧
            (m.similarity = n.similarity → n.firstSeen ≤ m.firstSeen)) := by
  refine ⟨fun th st1 st2 v h => by rw [h], fun th ns i h => ?_⟩
  obtain ⟨n, hn, hni, hsim, hdom⟩ := dedupDecide_ok_dup h
  refine ⟨n, hn, hni, hsim, fun m hm hth => ?_⟩
  rcases hdom m hm hth with hlt | ⟨heq, hfs⟩
  · exact ⟨le_of_lt hlt, fun he => absurd (he ▸ hlt) (lt_irrefl _)⟩
  · exact ⟨le_of_eq heq, fun _ => hfs⟩

/-- Witness for C8: with two neighbors at exactly the threshold similarity the
one with the earlier first-seen timestamp wins. -/
theorem c8_deterministic_tiebreak_witness :
    dedupDecide 1 (.ok (queryNeighbors (⟨[], [⟨7, [], 4⟩], 0⟩ : PipelineState).index [])) =
      dedupDecide 1 (.ok (queryNeighbors (⟨[⟨9, 9, 9, 9, "z", .unique, .unscored, "", 1, 1⟩],
        [⟨7, [], 4⟩], 3⟩ : PipelineState).index [])) ∧
    ∃ n ∈ [(⟨1, 1, 5⟩ : Neighbor), ⟨2, 1, 3⟩], n.nid = 2 ∧ (1 : ℚ) ≤ n.similarity ∧
      ∀ m ∈ [(⟨1, 1, 5⟩ : Neighbor), ⟨2, 1, 3⟩], (1 : ℚ) ≤ m.similarity →
        m.similarity ≤ n.similarity ∧
        (m.similarity = n.similarity → n.firstSeen ≤ m.firstSeen) :=
  ⟨c8_deterministic_tiebreak.1 1 ⟨[], [⟨7, [], 4⟩], 0⟩
      ⟨[⟨9, 9, 9, 9, "z", .unique, .unscored, "", 1, 1⟩], [⟨7, [], 4⟩], 3⟩ [] rfl,
    c8_deterministic_tiebreak.2 1 [⟨1, 1, 5⟩, ⟨2, 1, 3⟩] 2 (by decide)⟩

/-- C6: if the Vector Index similarity query errors, the candidate is marked
unique (fail-open), ingestion of the item proceeds to scoring, and the error
aborts neither the item nor the enclosing job. -/
theorem c6_index_error_fail_open :
    ∀ (th : ℚ) (accept : Nat) (st : PipelineState) (env : StepEnv) (item : RawItem),
      env.indexOk = false →
      exactDupExists st.store item.source (contentHash (canonicalize item.text)) = false →
      recordExists st.store item.source item.nativeId = false →
      (stepIngest th accept st env item).store =
        st.store ++ [⟨st.nextId, item.source, item.nativeId,
          contentHash (canonicalize item.text), canonicalize item.text, .unique,
          (scoreRecord accept env.now env.pstate env.outcome env.providers).1,
          (scoreRecord accept env.now env.pstate env.outcome env.providers).2,
          env.now, env.now⟩] ∧
      (∀ rest, runPipeline th accept st ((env, item) :: rest) =
        runPipeline th accept (stepIngest th accept st env item) rest) := by
  intro th accept st env item h0 h1 h2
  refine ⟨?_, fun rest => rfl⟩
  simp only [stepIngest, h0, h1, h2, Bool.false_eq_true, if_false, dedupDecide]

/-- Witness for C6: an errored index query still yields a unique, scored,
persisted record. -/
theorem c6_index_error_fail_open_witness :
    (stepIngest 1 4 initState ⟨0, false, fun _ => .closed, fun _ => .success 7 "ok", [0]⟩
        ⟨1, 1, "a", [1]⟩).store =
      initState.store ++ [⟨initState.nextId, 1, 1, contentHash (canonicalize "a"),
        canonicalize "a", .unique,
        (scoreRecord 4 0 (fun _ => .closed) (fun _ => .success 7 "ok") [0]).1,
        (scoreRecord 4 0 (fun _ => .closed) (fun _ => .success 7 "ok") [0]).2, 0, 0⟩] ∧
    runPipeline 1 4 initState
        [(⟨0, false, fun _ => .closed, fun _ => .success 7 "ok", [0]⟩, ⟨1, 1, "a", [1]⟩)] =
      runPipeline 1 4 (stepIngest 1 4 initState
        ⟨0, false, fun _ => .closed, fun _ => .success 7 "ok", [0]⟩ ⟨1, 1, "a", [1]⟩) [] :=
  ⟨(c6_index_error_fail_open 1 4 initState
      ⟨0, false, fun _ => .closed, fun _ => .success 7 "ok", [0]⟩
      ⟨1, 1, "a", [1]⟩ rfl (by decide) (by decide)).1,
    (c6_index_error_fail_open 1 4 initState
      ⟨0, false, fun _ => .closed, fun _ => .success 7 "ok", [0]⟩
      ⟨1, 1, "a", [1]⟩ rfl (by decide) (by decide)).2 []⟩

/-- C5: a unique record whose parsed score falls strictly below the acceptance
threshold ends in `discard:hype` — retained in the store but excluded from the
served feed — while a score at or above the threshold yields `scored:<n>` and
the record is served. -/
theorem c5_low_score_discard_hype :
    ∀ (th : ℚ) (accept : Nat) (st : PipelineState) (env : StepEnv) (item : RawItem)
      (s : Nat) (r : String),
      exactDupExists st.store item.source (contentHash (canonicalize item.text)) = false →
      recordExists st.store item.source item.nativeId = false →
      dedupDecide th (if env.indexOk then .ok (queryNeighbors st.index item.vec)
        else .error ()) = .unique →
      (runChain env.now env.pstate env.outcome env.providers).2 = some (s, r) →
      (stepIngest th accept st env item).store =
        st.store ++ [⟨st.nextId, item.source, item.nativeId,
          contentHash (canonicalize item.text), canonicalize item.text, .unique,
          if s < accept then .discard "hype" else .scored s, r, env.now, env.now⟩] ∧
      (s < accept →
        servedFeed (stepIngest th accept st env item).store = servedFeed st.store) ∧
      (accept ≤ s →
        servedFeed (stepIngest th accept st env item).store =
          servedFeed st.store ++ [⟨st.nextId, item.source, item.nativeId,
            contentHash (canonicalize item.text), canonicalize item.text, .unique,
            .scored s, r, env.now, env.now⟩]) := by
  intro th accept st env item s r h1 h2 h3 h4
  have hstep : (stepIngest th accept st env item).store =
      st.store ++ [⟨st.nextId, item.source, item.nativeId,
        contentHash (canonicalize item.text), canonicalize item.text, .unique,
        if s < accept then .discard "hype" else .scored s, r, env.now, env.now⟩] := by
    simp only [stepIngest, h1, h2, Bool.false_eq_true, if_false, h3, scoreRecord, h4]
    by_cases hs : s < accept <;> simp [hs]
  refine ⟨hstep, fun hlt => ?_, fun hge => ?_⟩
  · rw [hstep, servedFeed, servedFeed, List.filter_append]
    simp [if_pos hlt, isScored]
  · have hnlt : ¬s < accept := not_lt.mpr hge
    rw [hstep, servedFeed, servedFeed, List.filter_append]
    simp [if_neg hnlt]

/-- Witness for C5: a unique item scoring 3 against threshold 4 is persisted
as `discard:hype` and the served feed is unchanged. -/
theorem c5_low_score_discard_hype_witness :
    (stepIngest 1 4 initState ⟨0, true, fun _ => .closed, fun _ => .success 3 "meh", [0]⟩
        ⟨1, 1, "a", []⟩).store =
      initState.store ++ [⟨initState.nextId, 1, 1, contentHash (canonicalize "a"),
        canonicalize "a", .unique, if 3 < 4 then .discard "hype" else .scored 3,
        "meh", 0, 0⟩] ∧
    servedFeed (stepIngest 1 4 initState
        ⟨0, true, fun _ => .closed, fun _ => .success 3 "meh", [0]⟩
        ⟨1, 1, "a", []⟩).store = servedFeed initState.store :=
  ⟨(c5_low_score_discard_hype 1 4 initState
      ⟨0, true, fun _ => .closed, fun _ => .success 3 "meh", [0]⟩
      ⟨1, 1, "a", []⟩ 3 "meh" (by decide) (by decide) (by decide) (by decide)).1,
    (c5_low_score_discard_hype 1 4 initState
      ⟨0, true, fun _ => .closed, fun _ => .success 3 "meh", [0]⟩
      ⟨1, 1, "a", []⟩ 3 "meh" (by decide) (by decide) (by decide) (by decide)).2.1
      (by decide)⟩

/-- C2: providers are attempted in the configured list order (the attempts are
a sublist of the configured chain); a provider whose breaker is
`open-until:<t>` is never called before `t`; a rate-limited or error outcome
advances to the next provider with no same-provider retry within the chain. -/
theorem c2_provider_chain_order :
    ∀ (now : Nat) (pstate : Nat → ProviderState) (outcome : Nat → CallOutcome)
      (providers : List Nat),
      ((runChain now pstate outcome providers).1).Sublist providers ∧
      (∀ p ∈ (runChain now pstate outcome providers).1,
          providerSkipped now (pstate p) = false ∧
          ∀ t, pstate p = .openUntil t → t ≤ now) ∧
      (providers.Nodup → ((runChain now pstate outcome providers).1).Nodup) := by
  intro now pstate outcome providers
  induction providers with
  | nil => simp [runChain]
  | cons p ps ih =>
    by_cases hskip : providerSkipped now (pstate p) = true
    · rw [show runChain now pstate outcome (p :: ps) = runChain now pstate outcome ps by
        simp [runChain, hskip]]
      exact ⟨ih.1.cons p, ih.2.1, fun hnd => ih.2.2 (List.Nodup.of_cons hnd)⟩
    · have hskip' : providerSkipped now (pstate p) = false := by
        simpa using hskip
      have hopen : ∀ t, pstate p = .openUntil t → t ≤ now := by
        intro t ht
        rw [ht] at hskip'
        simpa [providerSkipped] using hskip'
      cases ho : outcome p with
      | success s r =>
        rw [show runChain now pstate outcome (p :: ps) = ([p], some (s, r)) by
          simp [runChain, hskip', ho]]
        refine ⟨(List.nil_sublist ps).cons₂ p, ?_, fun _ => List.nodup_singleton p⟩
        intro q hq
        rw [List.mem_singleton.mp hq]
        exact ⟨hskip', hopen⟩
      | timeout =>
        rw [show runChain now pstate outcome (p :: ps) =
            (p :: (runChain now pstate outcome ps).1, (runChain now pstate outcome ps).2) by
          simp [runChain, hskip', ho]]
        refine ⟨ih.1.cons₂ p, ?_, fun hnd => ?_⟩
        · intro q hq
          rcases List.mem_cons.mp hq with h | h
          · rw [h]; exact ⟨hskip', hopen⟩
          · exact ih.2.1 q h
        · refine List.Nodup.cons (fun hmem => ?_) (ih.2.2 (List.Nodup.of_cons hnd))
          exact (List.nodup_cons.mp hnd).1 (ih.1.subset hmem)
      | rateLimited =>
        rw [show runChain now pstate outcome (p :: ps) =
            (p :: (runChain now pstate outcome ps).1, (runChain now pstate outcome ps).2) by
          simp [runChain, hskip', ho]]
        refine ⟨ih.1.cons₂ p, ?_, fun hnd => ?_⟩
        · intro q hq
          rcases List.mem_cons.mp hq with h | h
          · rw [h]; exact ⟨hskip', hopen⟩
          · exact ih.2.1 q h
        · refine List.Nodup.cons (fun hmem => ?_) (ih.2.2 (List.Nodup.of_cons hnd))
          exact (List.nodup_cons.mp hnd).1 (ih.1.subset hmem)
      | error =>
        rw [show runChain now pstate outcome (p :: ps) =
            (p :: (runChain now pstate outcome ps).1, (runChain now pstate outcome ps).2) by
          simp [runChain, hskip', ho]]
        refine ⟨ih.1.cons₂ p, ?_, fun hnd => ?_⟩
        · intro q hq
          rcases List.mem_cons.mp hq with h | h
          · rw [h]; exact ⟨hskip', hopen⟩
          · exact ih.2.1 q h
        · refine List.Nodup.cons (fun hmem => ?_) (ih.2.2 (List.Nodup.of_cons hnd))
          exact (List.nodup_cons.mp hnd).1 (ih.1.subset hmem)

/-- Witness for C2: with provider 0 in open state until time 10 at time 5,
only providers 1 and 2 are attempted, in order and without repeats. -/
theorem c2_provider_chain_order_witness :
    ((runChain 5 (fun q => if q = 0 then .openUntil 10 else .closed)
        (fun q => if q = 2 then .success 6 "ok" else .error) [0, 1, 2]).1).Sublist
      [0, 1, 2] ∧
    ((runChain 5 (fun q => if q = 0 then .openUntil 10 else .closed)
        (fun q => if q = 2 then .success 6 "ok" else .error) [0, 1, 2]).1).Nodup :=
  ⟨(c2_provider_chain_order 5 (fun q => if q = 0 then .openUntil 10 else .closed)
      (fun q => if q = 2 then .success 6 "ok" else .error) [0, 1, 2]).1,
    (c2_provider_chain_order 5 (fun q => if q = 0 then .openUntil 10 else .closed)
      (fun q => if q = 2 then .success 6 "ok" else .error) [0, 1, 2]).2.2 (by decide)⟩

/-- The scheduler bookkeeping invariant: a `running` job has exactly one
in-flight run, any other phase has none. -/
def SchedInv (st : Nat → JobState) : Prop :=
  ∀ j, ((st j).phase = .running → (st j).inflight = 1) ∧
    ((st j).phase ≠ .running → (st j).inflight = 0)

theorem schedStep_inv {st : Nat → JobState} (h : SchedInv st) (e : SchedEvent) :
    SchedInv (schedStep st e) := by
  cases e with
  | trigger i =>
    intro j
    by_cases hj : j = i
    · subst hj
      simp only [schedStep, if_pos rfl]
      cases hp : (st j).phase with
      | idle => simpa using ((h j).2 (by rw [hp]; intro hc; cases hc))
      | running => simpa [hp] using h j
      | backoff => simpa [hp] using h j
    · simpa [schedStep, hj] using h j
  | finishOk i =>
    intro j
    by_cases hj : j = i
    · subst hj
      simp only [schedStep, if_pos rfl]
      cases hp : (st j).phase with
      | idle => simpa [hp] using h j
      | running => simp [(h j).1 hp]
      | backoff => simpa [hp] using h j
    · simpa [schedStep, hj] using h j
  | finishFail i =>
    intro j
    by_cases hj : j = i
    · subst hj
      simp only [schedStep, if_pos rfl]
      cases hp : (st j).phase with
      | idle => simpa [hp] using h j
      | running => simp [(h j).1 hp]
      | backoff => simpa [hp] using h j
    · simpa [schedStep, hj] using h j
  | backoffDone i =>
    intro j
    by_cases hj : j = i
    · subst hj
      simp only [schedStep, if_pos rfl]
      cases hp : (st j).phase with
      | idle => simpa [hp] using h j
      | running => simpa [hp] using h j
      | backoff =>
        have := (h j).2 (by rw [hp]; intro hc; cases hc)
        simp [this]
    · simpa [schedStep, hj] using h j

theorem foldl_schedStep_inv (events : List SchedEvent) {st : Nat → JobState}
    (h : SchedInv st) : SchedInv (events.foldl schedStep st) := by
  induction events generalizing st with
  | nil => exact h
  | cons e es ih => exact ih (schedStep_inv h e)

theorem runSched_inv (events : List SchedEvent) : SchedInv (runSched events) :=
  foldl_schedStep_inv events (fun _ => ⟨(fun hc => nomatch hc), fun _ => rfl⟩)

/-- C3: the Scheduler never has two concurrent runs of the same job — the
in-flight count of every job stays at most 1 under every event sequence of
scheduled triggers and manual `run_once` invocations — and a trigger arriving
while the job is running is a no-op. -/
theorem c3_no_overlapping_runs :
    ∀ (events : List SchedEvent) (j : Nat),
      (runSched events j).inflight ≤ 1 ∧
      ((runSched events j).phase = .running →
        schedStep (runSched events) (.trigger j) = runSched events) := by
  intro events j
  constructor
  · rcases runSched_inv events j with ⟨hrun, hnot⟩
    by_cases hp : (runSched events j).phase = .running
    · rw [hrun hp]
    · rw [hnot hp]
      exact Nat.zero_le 1
  · intro hp
    funext k
    by_cases hk : k = j
    · subst hk
      simp [schedStep, hp]
    · simp [schedStep, hk]

/-- Witness for C3: two rapid triggers of job 0 leave a single in-flight run,
and a further trigger while running changes nothing. -/
theorem c3_no_overlapping_runs_witness :
    (runSched [.trigger 0, .trigger 0] 0).inflight ≤ 1 ∧
    schedStep (runSched [.trigger 0, .trigger 0]) (.trigger 0) =
      runSched [.trigger 0, .trigger 0] :=
  ⟨(c3_no_overlapping_runs [.trigger 0, .trigger 0] 0).1,
    (c3_no_overlapping_runs [.trigger 0, .trigger 0] 0).2 (by decide)⟩

/-! ## Store invariant machinery -/

theorem recordExists_false {store : List ContentRecord} {src nat : Nat}
    (h : recordExists store src nat = false) :
    ∀ r ∈ store, ¬(r.source = src ∧ r.nativeId = nat) := by
  simp only [recordExists, List.any_eq_false] at h
  intro r hr hc
  exact h r hr (by simp [hc.1, hc.2])

theorem exactDupExists_false {store : List ContentRecord} {src hsh : Nat}
    (h : exactDupExists store src hsh = false) :
    ∀ r ∈ store, ¬(r.source = src ∧ r.hash = hsh) := by
  simp only [exactDupExists, List.any_eq_false] at h
  intro r hr hc
  exact h r hr (by simp [hc.1, hc.2])

theorem stepIngest_skip_hash (th : ℚ) (accept : Nat) (st : PipelineState)
    (env : StepEnv) (item : RawItem)
    (h : exactDupExists st.store item.source (contentHash (canonicalize item.text)) = true) :
    stepIngest th accept st env item = st := by
  simp [stepIngest, h]

theorem stepIngest_skip_record (th : ℚ) (accept : Nat) (st : PipelineState)
    (env : StepEnv) (item : RawItem)
    (h1 : exactDupExists st.store item.source (contentHash (canonicalize item.text)) = false)
    (h2 : recordExists st.store item.source item.nativeId = true) :
    stepIngest th accept st env item = st := by
  simp [stepIngest, h1, h2]

theorem stepIngest_dup (th : ℚ) (accept : Nat) (st : PipelineState)
    (env : StepEnv) (item : RawItem) (nbr : Nat)
    (h1 : exactDupExists st.store item.source (contentHash (canonicalize item.text)) = false)
    (h2 : recordExists st.store item.source item.nativeId = false)
    (hd : dedupDecide th (if env.indexOk then .ok (queryNeighbors st.index item.vec)
      else .error ()) = .duplicateOf nbr) :
    stepIngest th accept st env item =
      { store := st.store.map (touchMerged env.now nbr) ++
          [⟨st.nextId, item.source, item.nativeId,
            contentHash (canonicalize item.text), canonicalize item.text,
            .duplicateOf nbr, .unscored, "", env.now, env.now⟩]
        index := st.index
        nextId := st.nextId + 1 } := by
  simp only [stepIngest, h1, h2, Bool.false_eq_true, if_false, hd]

theorem stepIngest_uniq (th : ℚ) (accept : Nat) (st : PipelineState)
    (env : StepEnv) (item : RawItem)
    (h1 : exactDupExists st.store item.source (contentHash (canonicalize item.text)) = false)
    (h2 : recordExists st.store item.source item.nativeId = false)
    (hd : dedupDecide th (if env.indexOk then .ok (queryNeighbors st.index item.vec)
      else .error ()) = .unique) :
    stepIngest th accept st env item =
      { store := st.store ++
          [⟨st.nextId, item.source, item.nativeId,
            contentHash (canonicalize item.text), canonicalize item.text, .unique,
            (scoreRecord accept env.now env.pstate env.outcome env.providers).1,
            (scoreRecord accept env.now env.pstate env.outcome env.providers).2,
            env.now, env.now⟩]
        index := st.index ++ [⟨st.nextId, item.vec, env.now⟩]
        nextId := st.nextId + 1 } := by
  simp only [stepIngest, h1, h2, Bool.false_eq_true, if_false, hd]

theorem dup_decision_target {th : ℚ} {st : PipelineState} {env : StepEnv}
    {v : List ℚ} {nbr : Nat}
    (hidx : ∀ e ∈ st.index, ∃ q ∈ st.store, q.rid = e.eid ∧ q.dedup = DedupState.unique)
    (hd : dedupDecide th (if env.indexOk then .ok (queryNeighbors st.index v)
      else .error ()) = .duplicateOf nbr) :
    ∃ q ∈ st.store, q.rid = nbr ∧ q.dedup = DedupState.unique := by
  cases hio : env.indexOk with
  | false => rw [hio] at hd; simp [dedupDecide] at hd
  | true =>
    rw [hio] at hd
    simp only [if_true] at hd
    obtain ⟨n, hn, hni, _, _⟩ := dedupDecide_ok_dup hd
    obtain ⟨e, he, hne⟩ := queryNeighbors_mem hn
    obtain ⟨q, hq, hqe, hqu⟩ := hidx e he
    exact ⟨q, hq, by rw [hqe, ← hne, hni], hqu⟩

/-- The §3 store invariant: every index entry and every `duplicate-of` pointer
references an existing unique record, and no two records share a
(source, source-native-id) pair or a (source, content-hash) pair. -/
def StoreInv (st : PipelineState) : Prop :=
  (∀ e ∈ st.index, ∃ q ∈ st.store, q.rid = e.eid ∧ q.dedup = DedupState.unique) ∧
  (∀ r ∈ st.store, ∀ x, r.dedup = DedupState.duplicateOf x →
      ∃ q ∈ st.store, q.rid = x ∧ q.dedup = DedupState.unique) ∧
  st.store.Pairwise (fun r1 r2 => ¬(r1.source = r2.source ∧ r1.nativeId = r2.nativeId)) ∧
  st.store.Pairwise (fun r1 r2 => ¬(r1.source = r2.source ∧ r1.hash = r2.hash))

theorem storeInv_init : StoreInv initState := by
  refine ⟨?_, ?_, ?_, ?_⟩ <;> simp [initState]

theorem stepIngest_storeInv (th : ℚ) (accept : Nat) (st : PipelineState)
    (env : StepEnv) (item : RawItem) (h : StoreInv st) :
    StoreInv (stepIngest th accept st env item) := by
  obtain ⟨hidx, hdup, hnid, hhash⟩ := h
  by_cases h1 : exactDupExists st.store item.source (contentHash (canonicalize item.text)) = true
  · rw [stepIngest_skip_hash th accept st env item h1]
    exact ⟨hidx, hdup, hnid, hhash⟩
  have h1' := eq_false_of_ne_true h1
  by_cases h2 : recordExists st.store item.source item.nativeId = true
  · rw [stepIngest_skip_record th accept st env item h1' h2]
    exact ⟨hidx, hdup, hnid, hhash⟩
  have h2' := eq_false_of_ne_true h2
  have hnof := recordExists_false h2'
  have hnoh := exactDupExists_false h1'
  cases hd : dedupDecide th (if env.indexOk then .ok (queryNeighbors st.index item.vec)
      else .error ()) with
  | duplicateOf nbr =>
    rw [stepIngest_dup th accept st env item nbr h1' h2' hd]
    obtain ⟨q0, hq0, hq0r, hq0u⟩ := dup_decision_target hidx hd
    refine ⟨?_, ?_, ?_, ?_⟩
    · intro e he
      obtain ⟨q, hq, hqe, hqu⟩ := hidx e he
      exact ⟨touchMerged env.now nbr q,
        List.mem_append_left _ (List.mem_map_of_mem _ hq),
        by rw [(touchMerged_fields env.now nbr q).1, hqe],
        by rw [(touchMerged_fields env.now nbr q).2.2.2.2.1, hqu]⟩
    · intro r' hr' x hx
      rcases List.mem_append.mp hr' with hmap | hone
      · obtain ⟨r, hr, hrr⟩ := List.mem_map.mp hmap
        have hdd : r.dedup = DedupState.duplicateOf x := by
          rw [← (touchMerged_fields env.now nbr r).2.2.2.2.1, hrr, hx]
        obtain ⟨q, hq, hqe, hqu⟩ := hdup r hr x hdd
        exact ⟨touchMerged env.now nbr q,
          List.mem_append_left _ (List.mem_map_of_mem _ hq),
          by rw [(touchMerged_fields env.now nbr q).1, hqe],
          by rw [(touchMerged_fields env.now nbr q).2.2.2.2.1, hqu]⟩
      · have hr'' := List.mem_singleton.mp hone
        have hxn : nbr = x := by
          rw [hr''] at hx
          simpa using hx
        exact ⟨touchMerged env.now nbr q0,
          List.mem_append_left _ (List.mem_map_of_mem _ hq0),
          by rw [(touchMerged_fields env.now nbr q0).1, hq0r, hxn],
          by rw [(touchMerged_fields env.now nbr q0).2.2.2.2.1, hq0u]⟩
    · rw [List.pairwise_append]
      refine ⟨List.Pairwise.map _ (fun a b hab => ?_) hnid,
        List.pairwise_singleton _ _, ?_⟩
      · rw [(touchMerged_fields env.now nbr a).2.1, (touchMerged_fields env.now nbr b).2.1,
          (touchMerged_fields env.now nbr a).2.2.1, (touchMerged_fields env.now nbr b).2.2.1]
        exact hab
      · intro a ha b hb
        obtain ⟨r, hr, hra⟩ := List.mem_map.mp ha
        rw [List.mem_singleton.mp hb, ← hra,
          (touchMerged_fields env.now nbr r).2.1, (touchMerged_fields env.now nbr r).2.2.1]
        exact hnof r hr
    · rw [List.pairwise_append]
      refine ⟨List.Pairwise.map _ (fun a b hab => ?_) hhash,
        List.pairwise_singleton _ _, ?_⟩
      · rw [(touchMerged_fields env.now nbr a).2.1, (touchMerged_fields env.now nbr b).2.1,
          (touchMerged_fields env.now nbr a).2.2.2.1, (touchMerged_fields env.now nbr b).2.2.2.1]
        exact hab
      · intro a ha b hb
        obtain ⟨r, hr, hra⟩ := List.mem_map.mp ha
        rw [List.mem_singleton.mp hb, ← hra,
          (touchMerged_fields env.now nbr r).2.1, (touchMerged_fields env.now nbr r).2.2.2.1]
        exact hnoh r hr
  | unique =>
    rw [stepIngest_uniq th accept st env item h1' h2' hd]
    refine ⟨?_, ?_, ?_, ?_⟩
    · intro e he
      rcases List.mem_append.mp he with hold | hnew
      · obtain ⟨q, hq, hqe, hqu⟩ := hidx e hold
        exact ⟨q, List.mem_append_left _ hq, hqe, hqu⟩
      · refine ⟨_, List.mem_append_right _ (List.mem_singleton.mpr rfl), ?_, rfl⟩
        rw [List.mem_singleton.mp hnew]
    · intro r' hr' x hx
      rcases List.mem_append.mp hr' with hold | hnew
      · obtain ⟨q, hq, hqe, hqu⟩ := hdup r' hold x hx
        exact ⟨q, List.mem_append_left _ hq, hqe, hqu⟩
      · rw [List.mem_singleton.mp hnew] at hx
        simp at hx
    · rw [List.pairwise_append]
      refine ⟨hnid, List.pairwise_singleton _ _, ?_⟩
      intro a ha b hb
      rw [List.mem_singleton.mp hb]
      exact hnof a ha
    · rw [List.pairwise_append]
      refine ⟨hhash, List.pairwise_singleton _ _, ?_⟩
      intro a ha b hb
      rw [List.mem_singleton.mp hb]
      exact hnoh a ha

theorem runPipeline_storeInv (th : ℚ) (accept : Nat)
    (inputs : List (StepEnv × RawItem)) {st : PipelineState} (h : StoreInv st) :
    StoreInv (runPipeline th accept st inputs) := by
  induction inputs generalizing st with
  | nil => exact h
  | cons p rest ih =>
    obtain ⟨env, item⟩ := p
    exact ih (stepIngest_storeInv th accept st env item h)

theorem filter_length_le_one {α : Type} (p : α → Bool) (l : List α)
    (h : l.Pairwise fun a b => ¬(p a = true ∧ p b = true)) :
    (l.filter p).length ≤ 1 := by
  induction l with
  | nil => simp
  | cons a l ih =>
    obtain ⟨ha, hl⟩ := List.pairwise_cons.mp h
    by_cases hp : p a = true
    · have hnil : l.filter p = [] := by
        rw [List.filter_eq_nil_iff]
        intro b hb hpb
        exact ha b hb ⟨hp, hpb⟩
      simp [List.filter_cons, hp, hnil]
    · have hp' := eq_false_of_ne_true hp
      simp only [List.filter_cons, hp', Bool.false_eq_true, if_false]
      exact ih hl

/-- C4: in every reachable pipeline state, every `duplicate-of:X` record
references an existing record X whose dedup state is `unique`, and no two
ContentRecords share a (source, source-native-id) pair. -/
theorem c4_duplicate_pointer_invariant :
    ∀ (th : ℚ) (accept : Nat) (inputs : List (StepEnv × RawItem)),
      (∀ r ∈ (runPipeline th accept initState inputs).store, ∀ x,
          r.dedup = DedupState.duplicateOf x →
          ∃ q ∈ (runPipeline th accept initState inputs).store,
            q.rid = x ∧ q.dedup = DedupState.unique) ∧
      (runPipeline th accept initState inputs).store.Pairwise
        (fun r1 r2 => ¬(r1.source = r2.source ∧ r1.nativeId = r2.nativeId)) := by
  intro th accept inputs
  obtain ⟨_, hdup, hnid, _⟩ := runPipeline_storeInv th accept inputs storeInv_init
  exact ⟨hdup, hnid⟩

/-- Witness for C4: a concrete run ending with a `duplicate-of:0` record whose
target exists and is unique. -/
theorem c4_duplicate_pointer_invariant_witness :
    (∃ q ∈ (runPipeline 0 4 initState
        [(⟨0, true, fun _ => .closed, fun _ => .error, []⟩, ⟨1, 1, "a", []⟩),
         (⟨1, true, fun _ => .closed, fun _ => .error, []⟩, ⟨1, 2, "b", []⟩)]).store,
      q.rid = 0 ∧ q.dedup = DedupState.unique) ∧
    (runPipeline 0 4 initState
        [(⟨0, true, fun _ => .closed, fun _ => .error, []⟩, ⟨1, 1, "a", []⟩),
         (⟨1, true, fun _ => .closed, fun _ => .error, []⟩, ⟨1, 2, "b", []⟩)]).store.Pairwise
      (fun r1 r2 => ¬(r1.source = r2.source ∧ r1.nativeId = r2.nativeId)) :=
  ⟨(c4_duplicate_pointer_invariant 0 4
      [(⟨0, true, fun _ => .closed, fun _ => .error, []⟩, ⟨1, 1, "a", []⟩),
       (⟨1, true, fun _ => .closed, fun _ => .error, []⟩, ⟨1, 2, "b", []⟩)]).1
      ⟨1, 1, 2, contentHash (canonicalize "b"), canonicalize "b",
        .duplicateOf 0, .unscored, "", 1, 1⟩ (by decide) 0 (by decide),
    (c4_duplicate_pointer_invariant 0 4
      [(⟨0, true, fun _ => .closed, fun _ => .error, []⟩, ⟨1, 1, "a", []⟩),
       (⟨1, true, fun _ => .closed, fun _ => .error, []⟩, ⟨1, 2, "b", []⟩)]).2⟩

/-- C7: for any two raw items from the same source with identical canonicalized
text (hence identical content hashes) at most one ContentRecord with that
(source, hash) ever exists, and the Normalizer skips an item whose exact hash
is already stored — normalization is idempotent under replay. -/
theorem c7_normalize_idempotent :
    ∀ (th : ℚ) (accept : Nat) (inputs : List (StepEnv × RawItem)) (src : Nat) (t : String),
      ((runPipeline th accept initState inputs).store.filter
        (fun r => r.source == src && r.hash == contentHash (canonicalize t))).length ≤ 1 ∧
      (∀ (st : PipelineState) (env : StepEnv) (item : RawItem),
        exactDupExists st.store item.source (contentHash (canonicalize item.text)) = true →
        stepIngest th accept st env item = st) := by
  intro th accept inputs src t
  refine ⟨?_, fun st env item h => stepIngest_skip_hash th accept st env item h⟩
  have hp := (runPipeline_storeInv th accept inputs storeInv_init).2.2.2
  apply filter_length_le_one
  refine hp.imp ?_
  intro a b hab hc
  apply hab
  simp only [Bool.and_eq_true, beq_iff_eq] at hc
  exact ⟨hc.1.1.trans hc.2.1.symm, hc.1.2.trans hc.2.2.symm⟩

/-- Witness for C7: replaying an item whose canonicalized text `" hi "` equals
an already-stored `"hi"` leaves exactly one matching record, and the skip is a
strict no-op on a concrete state. -/
theorem c7_normalize_idempotent_witness :
    ((runPipeline 0 4 initState
        [(⟨0, true, fun _ => .closed, fun _ => .error, []⟩, ⟨1, 1, " hi ", []⟩),
         (⟨1, true, fun _ => .closed, fun _ => .error, []⟩, ⟨1, 2, "hi", []⟩)]).store.filter
      (fun r => r.source == 1 && r.hash == contentHash (canonicalize "hi"))).length ≤ 1 ∧
    stepIngest 0 4
      ⟨[⟨0, 1, 1, contentHash (canonicalize "hi"), "hi", .unique, .exhausted, "", 0, 0⟩],
        [⟨0, [], 0⟩], 1⟩
      ⟨1, true, fun _ => .closed, fun _ => .error, []⟩ ⟨1, 5, "hi", []⟩ =
    ⟨[⟨0, 1, 1, contentHash (canonicalize "hi"), "hi", .unique, .exhausted, "", 0, 0⟩],
      [⟨0, [], 0⟩], 1⟩ :=
  ⟨(c7_normalize_idempotent 0 4
      [(⟨0, true, fun _ => .closed, fun _ => .error, []⟩, ⟨1, 1, " hi ", []⟩),
       (⟨1, true, fun _ => .closed, fun _ => .error, []⟩, ⟨1, 2, "hi", []⟩)] 1 "hi").1,
    (c7_normalize_idempotent 0 4 [] 1 "hi").2
      ⟨[⟨0, 1, 1, contentHash (canonicalize "hi"), "hi", .unique, .exhausted, "", 0, 0⟩],
        [⟨0, [], 0⟩], 1⟩
      ⟨1, true, fun _ => .closed, fun _ => .error, []⟩ ⟨1, 5, "hi", []⟩ (by decide)⟩

end Infra
